import Mathlib

/-!
# Verification of the zed-rpc framing codec and message classification

Shallow embedding of `src/zed-rpc/src/proto.rs`: the `MessageStream`
framing codec (`write_message` / `read_message`), the chunked transport
from the module's test harness, and the `to_variant` / `from_variant`
classification generated by the `directed_message!` macro.

Bytes are modelled as `Nat` (values below 256 on any real wire); machine
arithmetic on the 4-byte length header is explicit `/ 2^k % 256`.
-/

namespace ZedRpc

/-- The `io::Error` values the codec can produce: `UnexpectedEof` from
`read_exact` hitting end of stream, `WriteZero` from `write_all` making no
progress, and `InvalidData` (with its message) for the oversize check and
for protobuf decode failures. -/
inductive IoError where
  | unexpectedEof : IoError
  | writeZero : IoError
  | invalidData (msg : String) : IoError
  deriving DecidableEq, Repr

/-- The `ChunkedStream` transport from the module's tests: a byte vector, a
read offset, and a maximum number of bytes transferred per I/O call. -/
structure ChunkedStream where
  bytes : List Nat
  read_offset : Nat
  chunk_size : Nat
  deriving DecidableEq, Repr

/-- `ChunkedStream::poll_read`: copies
`min (min bufLen chunk_size) (bytes.length - read_offset)` bytes out of
the stream and advances `read_offset`. -/
def pollRead (s : ChunkedStream) (bufLen : Nat) : List Nat × ChunkedStream :=
  let bytes_read := min (min bufLen s.chunk_size) (s.bytes.length - s.read_offset)
  ((s.bytes.drop s.read_offset).take bytes_read,
    { s with read_offset := s.read_offset + bytes_read })

/-- `ChunkedStream::poll_write`: accepts `min bufLen chunk_size` bytes,
appending them to the stream's byte vector. -/
def pollWrite (s : ChunkedStream) (buf : List Nat) : Nat × ChunkedStream :=
  let bytes_written := min buf.length s.chunk_size
  (bytes_written, { s with bytes := s.bytes ++ buf.take bytes_written })

/-- `AsyncReadExt::read_exact`: loops issuing reads against the same
logical operation until `remaining` bytes have been accumulated; a
zero-length chunk while bytes remain is `UnexpectedEof`. -/
def readExactGo (s : ChunkedStream) (remaining : Nat) (acc : List Nat) :
    Except IoError (List Nat) × ChunkedStream :=
  if h : remaining = 0 then (.ok acc, s)
  else
    match hr : pollRead s remaining with
    | (chunk, s1) =>
      if h2 : chunk.length = 0 then (.error .unexpectedEof, s1)
      else readExactGo s1 (remaining - chunk.length) (acc ++ chunk)
termination_by remaining
decreasing_by
  simp only [pollRead, Prod.mk.injEq] at hr
  obtain ⟨h3, h4⟩ := hr
  subst h3
  simp only [List.length_take, List.length_drop] at h2 ⊢
  omega

/-- `read_exact` entry point: fill a fresh buffer of length `n`. -/
def readExact (s : ChunkedStream) (n : Nat) : Except IoError (List Nat) × ChunkedStream :=
  readExactGo s n []

/-- `AsyncWriteExt::write_all`: loops issuing writes of the remaining
suffix until every byte is accepted; a write accepting zero bytes is a
`WriteZero` error. -/
def writeAll (s : ChunkedStream) (buf : List Nat) : Except IoError Unit × ChunkedStream :=
  if h : buf.length = 0 then (.ok (), s)
  else
    match hr : pollWrite s buf with
    | (n, s1) =>
      if h2 : n = 0 then (.error .writeZero, s1)
      else writeAll s1 (buf.drop n)
termination_by buf.length
decreasing_by
  simp only [pollWrite, Prod.mk.injEq] at hr
  obtain ⟨h3, h4⟩ := hr
  subst h3
  simp only [List.length_drop]
  omega

/-- Modelled from the spec: the prost `Message` trait implemented by the
generated envelope types (the generated `zed.messages.rs` schema code is
not under `src/`). A message type supplies `encoded_len`, `encode`
(appending bytes to a buffer) and `decode`; the schema source is treated
as an opaque, previously-agreed binary contract. -/
structure ProstMessage (α : Type) where
  encoded_len : α → Nat
  encode : α → List Nat
  decode : List Nat → Option α

/-- A prost codec is lawful on a value when `encode` appends exactly
`encoded_len` bytes and `decode` inverts `encode` — the contract the
generated schema code provides for every registered payload type. -/
def LawfulOn {α : Type} (pm : ProstMessage α) (m : α) : Prop :=
  (pm.encode m).length = pm.encoded_len m ∧ pm.decode (pm.encode m) = some m

/-- `u32::to_be_bytes` of a length that fits in 4 bytes. -/
def beBytes (n : Nat) : List Nat :=
  [n / 2 ^ 24 % 256, n / 2 ^ 16 % 256, n / 2 ^ 8 % 256, n % 256]

/-- `u32::from_be_bytes` on the 4 header bytes. -/
def beToNat : List Nat → Nat
  | [b0, b1, b2, b3] => b0 * 2 ^ 24 + b1 * 2 ^ 16 + b2 * 2 ^ 8 + b3
  | _ => 0

/-- `Vec::resize(n, 0)`: truncate to `n` elements or extend with zeros. -/
def listResize (l : List Nat) (n : Nat) : List Nat :=
  l.take n ++ List.replicate (n - l.length) 0

/-- `MessageStream`: one transport connection plus the stream's single
reusable scratch buffer. -/
structure MessageStream where
  byte_stream : ChunkedStream
  buffer : List Nat
  deriving DecidableEq, Repr

/-- `MessageStream::new`. -/
def MessageStream.new (byte_stream : ChunkedStream) : MessageStream :=
  { byte_stream, buffer := [] }

/-- `MessageStream::write_message`: fails with `InvalidData` ("message is
too large") when `encoded_len` does not fit in a `u32`; otherwise clears
the scratch buffer, appends the 4-byte big-endian length then the encoded
payload, and writes the whole buffer with `write_all`. -/
def writeMessage {α : Type} (ms : MessageStream) (pm : ProstMessage α) (m : α) :
    Except IoError Unit × MessageStream :=
  let len := pm.encoded_len m
  if len ≤ 4294967295 then
    let buf := beBytes len ++ pm.encode m
    let r := writeAll ms.byte_stream buf
    (r.1, { byte_stream := r.2, buffer := buf })
  else
    (.error (.invalidData "message is too large"), ms)

/-- The error message prost's `DecodeError → io::Error` conversion carries. -/
def decodeErrorMsg : String := "failed to decode Protobuf message"

/-- `MessageStream::read_message`: reads exactly 4 header bytes, interprets
them as a big-endian `u32` length, resizes the scratch buffer to that
length, reads exactly that many body bytes into it, then decodes them as
the caller-requested type. -/
def readMessage {α : Type} (ms : MessageStream) (pm : ProstMessage α) :
    Except IoError α × MessageStream :=
  match readExact ms.byte_stream 4 with
  | (.error e, s1) => (.error e, { ms with byte_stream := s1 })
  | (.ok delimiter_buf, s1) =>
    let message_len := beToNat delimiter_buf
    let resized := listResize ms.buffer message_len
    match readExact s1 message_len with
    | (.error e, s2) => (.error e, { byte_stream := s2, buffer := resized })
    | (.ok body, s2) =>
      match pm.decode body with
      | some m => (.ok m, { byte_stream := s2, buffer := body })
      | none => (.error (.invalidData decodeErrorMsg), { byte_stream := s2, buffer := body })

/-! ## Message classification (`directed_message!` and the registrations) -/

namespace from_client

/-- Modelled from the spec: the generated `from_client::Auth` payload
(fields from the spec's concrete scenario: user id and access token). -/
structure Auth where
  user_id : Int
  access_token : String
  deriving DecidableEq, Repr

/-- Modelled from the spec: the generated `from_client::NewWorktree`
payload; its fields are not visible in the sampled source and are
irrelevant to classification. -/
structure NewWorktree where
  deriving DecidableEq, Repr

/-- Modelled from the spec: the generated `from_client::ShareWorktree`
payload; fields not visible in the sampled source. -/
structure ShareWorktree where
  deriving DecidableEq, Repr

/-- Modelled from the spec: the generated `from_client::UploadFile`
payload (fields from the module's test: a path and a content body). -/
structure UploadFile where
  path : List Nat
  content : List Nat
  deriving DecidableEq, Repr

/-- Modelled from the spec: the generated
`from_client::SubscribeToPathRequests` payload; fields not visible in the
sampled source. -/
structure SubscribeToPathRequests where
  deriving DecidableEq, Repr

/-- Modelled from the spec: the generated `from_client::Variant` — the
closed tagged union of client-direction payload arms, one arm per
registered client payload type (registrations in `proto.rs`). -/
inductive Variant where
  | Auth (msg : Auth)
  | NewWorktree (msg : NewWorktree)
  | ShareWorktree (msg : ShareWorktree)
  | UploadFile (msg : UploadFile)
  | SubscribeToPathRequests (msg : SubscribeToPathRequests)
  deriving DecidableEq, Repr

end from_client

namespace from_server

/-- Modelled from the spec: the generated `from_server::AuthResponse`
payload; fields not visible in the sampled source. -/
structure AuthResponse where
  deriving DecidableEq, Repr

/-- Modelled from the spec: the generated `from_server::NewWorktreeResponse`
payload; fields not visible in the sampled source. -/
structure NewWorktreeResponse where
  deriving DecidableEq, Repr

/-- Modelled from the spec: the generated `from_server::ShareWorktreeResponse`
payload; fields not visible in the sampled source. -/
structure ShareWorktreeResponse where
  deriving DecidableEq, Repr

/-- Modelled from the spec: the generated `from_server::PathRequest`
payload; fields not visible in the sampled source. -/
structure PathRequest where
  deriving DecidableEq, Repr

/-- Modelled from the spec: the generated `from_server::Variant` — the
closed tagged union of server-direction payload arms. -/
inductive Variant where
  | AuthResponse (msg : AuthResponse)
  | NewWorktreeResponse (msg : NewWorktreeResponse)
  | ShareWorktreeResponse (msg : ShareWorktreeResponse)
  | PathRequest (msg : PathRequest)
  deriving DecidableEq, Repr

end from_server

/-! The `directed_message!` macro's `ClientMessage` / `ServerMessage`
implementations: `to_variant` wraps the payload in its own arm;
`from_variant` unwraps exactly that arm and returns `none` on any other
arm. One pair per registration:
`request_message!(Auth, AuthResponse)`,
`request_message!(NewWorktree, NewWorktreeResponse)`,
`request_message!(ShareWorktree, ShareWorktreeResponse)`,
`send_message!(UploadFile)`,
`subscribe_message!(SubscribeToPathRequests, PathRequest)`. -/

def from_client.Auth.to_variant (self : from_client.Auth) : from_client.Variant :=
  .Auth self

def from_client.Auth.from_variant : from_client.Variant → Option from_client.Auth
  | .Auth msg => some msg
  | _ => none

def from_client.NewWorktree.to_variant (self : from_client.NewWorktree) : from_client.Variant :=
  .NewWorktree self

def from_client.NewWorktree.from_variant : from_client.Variant → Option from_client.NewWorktree
  | .NewWorktree msg => some msg
  | _ => none

def from_client.ShareWorktree.to_variant (self : from_client.ShareWorktree) : from_client.Variant :=
  .ShareWorktree self

def from_client.ShareWorktree.from_variant : from_client.Variant → Option from_client.ShareWorktree
  | .ShareWorktree msg => some msg
  | _ => none

def from_client.UploadFile.to_variant (self : from_client.UploadFile) : from_client.Variant :=
  .UploadFile self

def from_client.UploadFile.from_variant : from_client.Variant → Option from_client.UploadFile
  | .UploadFile msg => some msg
  | _ => none

def from_client.SubscribeToPathRequests.to_variant
    (self : from_client.SubscribeToPathRequests) : from_client.Variant :=
  .SubscribeToPathRequests self

def from_client.SubscribeToPathRequests.from_variant :
    from_client.Variant → Option from_client.SubscribeToPathRequests
  | .SubscribeToPathRequests msg => some msg
  | _ => none

def from_server.AuthResponse.to_variant (self : from_server.AuthResponse) : from_server.Variant :=
  .AuthResponse self

def from_server.AuthResponse.from_variant : from_server.Variant → Option from_server.AuthResponse
  | .AuthResponse msg => some msg
  | _ => none

def from_server.NewWorktreeResponse.to_variant
    (self : from_server.NewWorktreeResponse) : from_server.Variant :=
  .NewWorktreeResponse self

def from_server.NewWorktreeResponse.from_variant :
    from_server.Variant → Option from_server.NewWorktreeResponse
  | .NewWorktreeResponse msg => some msg
  | _ => none

def from_server.ShareWorktreeResponse.to_variant
    (self : from_server.ShareWorktreeResponse) : from_server.Variant :=
  .ShareWorktreeResponse self

def from_server.ShareWorktreeResponse.from_variant :
    from_server.Variant → Option from_server.ShareWorktreeResponse
  | .ShareWorktreeResponse msg => some msg
  | _ => none

def from_server.PathRequest.to_variant (self : from_server.PathRequest) : from_server.Variant :=
  .PathRequest self

def from_server.PathRequest.from_variant : from_server.Variant → Option from_server.PathRequest
  | .PathRequest msg => some msg
  | _ => none

/-! ## Concrete codecs used to instantiate the abstract prost contract -/

/-- A trivially lawful concrete codec on raw byte lists, used to
instantiate theorems about the framing layer at concrete inputs. -/
def natListCodec : ProstMessage (List Nat) :=
  { encoded_len := List.length, encode := fun l => l, decode := fun l => some l }

/-- A codec whose decoder rejects every byte sequence, used to exercise
the malformed-payload path at concrete inputs. -/
def failCodec : ProstMessage (List Nat) :=
  { encoded_len := List.length, encode := fun l => l, decode := fun _ => none }

/-- A codec reporting an encoded length that does not fit in a `u32`, used
to exercise the oversize-rejection path at concrete inputs. -/
def bigCodec : ProstMessage Unit :=
  { encoded_len := fun _ => 4294967296, encode := fun _ => [], decode := fun _ => none }

/-! ## Transport-loop lemmas -/

/-- With any positive chunk size, `write_all` succeeds and appends the
whole buffer to the transport, no matter how the writes are chunked. -/
theorem writeAll_ok (s : ChunkedStream) (buf : List Nat) (hc : 1 ≤ s.chunk_size) :
    writeAll s buf = (.ok (), { s with bytes := s.bytes ++ buf }) := by
  induction s, buf using writeAll.induct with
  | case1 s buf h =>
    rw [writeAll]
    simp_all [List.length_eq_zero.mp h]
  | case2 s buf h s1 hr =>
    simp only [pollWrite, Prod.mk.injEq] at hr
    omega
  | case3 s buf h n s1 hr h2 ih =>
    rw [writeAll]
    simp only [dif_neg h, hr, dif_neg h2]
    have hs1 : s1 = { s with bytes := s.bytes ++ buf.take n } := by
      simp only [pollWrite, Prod.mk.injEq] at hr
      obtain ⟨hn, hs⟩ := hr
      subst hn
      exact hs.symm
    have hchunk : 1 ≤ s1.chunk_size := by rw [hs1]; exact hc
    rw [ih hchunk, hs1]
    simp only [List.append_assoc, List.take_append_drop]

/-- With any positive chunk size and enough bytes available, the
`read_exact` loop succeeds and returns exactly the next `remaining` bytes,
advancing the read offset by `remaining`. -/
theorem readExactGo_ok (s : ChunkedStream) (remaining : Nat) (acc : List Nat)
    (hc : 1 ≤ s.chunk_size) (hn : remaining ≤ s.bytes.length - s.read_offset) :
    readExactGo s remaining acc =
      (.ok (acc ++ (s.bytes.drop s.read_offset).take remaining),
        { s with read_offset := s.read_offset + remaining }) := by
  induction s, remaining, acc using readExactGo.induct with
  | case1 s acc =>
    rw [readExactGo]
    simp
  | case2 s remaining acc h chunk s1 hr h2 =>
    simp only [pollRead, Prod.mk.injEq] at hr
    obtain ⟨hchunk, hs1⟩ := hr
    subst hchunk
    simp only [List.length_take, List.length_drop] at h2
    omega
  | case3 s remaining acc h chunk s1 hr h2 ih =>
    rw [readExactGo]
    simp only [dif_neg h, hr, dif_neg h2]
    simp only [pollRead, Prod.mk.injEq] at hr
    obtain ⟨hchunk, hs1⟩ := hr
    have hbr : chunk.length = min (min remaining s.chunk_size) (s.bytes.length - s.read_offset) := by
      rw [← hchunk]
      simp only [List.length_take, List.length_drop]
      omega
    have hle : chunk.length ≤ remaining := by omega
    have hs1fields : s1.bytes = s.bytes ∧
        s1.read_offset = s.read_offset + chunk.length ∧ s1.chunk_size = s.chunk_size := by
      rw [← hs1]
      refine ⟨rfl, ?_, rfl⟩
      simp only [← hbr]
    obtain ⟨hb1, hro1, hcs1⟩ := hs1fields
    rw [ih (by omega) (by rw [hb1, hro1]; omega)]
    have htake : (s1.bytes.drop s1.read_offset).take (remaining - chunk.length) =
        ((s.bytes.drop s.read_offset).drop chunk.length).take (remaining - chunk.length) := by
      rw [hb1, hro1, List.drop_drop]
    have hsplit : (s.bytes.drop s.read_offset).take remaining =
        chunk ++ ((s.bytes.drop s.read_offset).drop chunk.length).take (remaining - chunk.length) := by
      conv_lhs => rw [show remaining = chunk.length + (remaining - chunk.length) by omega]
      rw [List.take_add]
      congr 1
      rw [hbr]
      exact hchunk
    simp only [Prod.mk.injEq]
    constructor
    · rw [htake, hsplit, List.append_assoc]
    · rw [hb1, hro1, hcs1]
      congr 1
      omega

/-- When fewer bytes are available than requested, the `read_exact` loop
fails with `UnexpectedEof` (the stream closed early), never returning a
short result. -/
theorem readExactGo_eof (s : ChunkedStream) (remaining : Nat) (acc : List Nat)
    (hn : s.bytes.length - s.read_offset < remaining) :
    (readExactGo s remaining acc).1 = .error .unexpectedEof := by
  induction s, remaining, acc using readExactGo.induct with
  | case1 s acc => omega
  | case2 s remaining acc h chunk s1 hr h2 =>
    rw [readExactGo]
    simp only [dif_neg h, hr, dif_pos h2]
  | case3 s remaining acc h chunk s1 hr h2 ih =>
    rw [readExactGo]
    simp only [dif_neg h, hr, dif_neg h2]
    apply ih
    simp only [pollRead, Prod.mk.injEq] at hr
    obtain ⟨hchunk, hs1⟩ := hr
    have hbr : chunk.length = min (min remaining s.chunk_size) (s.bytes.length - s.read_offset) := by
      rw [← hchunk]
      simp only [List.length_take, List.length_drop]
      omega
    have hs1fields : s1.bytes = s.bytes ∧ s1.read_offset = s.read_offset + chunk.length := by
      rw [← hs1]
      exact ⟨rfl, by simp only [← hbr]⟩
    obtain ⟨hb1, hro1⟩ := hs1fields
    rw [hb1, hro1]
    omega

/-- A zero chunk size makes the first read deliver zero bytes, which the
`read_exact` loop reports as `UnexpectedEof`. -/
theorem readExactGo_zero_chunk (s : ChunkedStream) (remaining : Nat) (acc : List Nat)
    (hc : s.chunk_size = 0) (hn : 1 ≤ remaining) :
    (readExactGo s remaining acc).1 = .error .unexpectedEof := by
  rw [readExactGo]
  have h : ¬remaining = 0 := by omega
  simp [dif_neg h, pollRead, hc]

/-! ## Header lemmas -/

theorem beBytes_length (n : Nat) : (beBytes n).length = 4 := rfl

/-- Decoding the 4 big-endian header bytes of a length that fits in a
`u32` recovers that length. -/
theorem beToNat_beBytes (n : Nat) (h : n ≤ 4294967295) : beToNat (beBytes n) = n := by
  simp only [beBytes, beToNat]
  norm_num
  omega

/-! ## Message-level lemmas -/

/-- `write_message` on a transport with positive chunk size and a payload
whose length fits in a `u32`: it succeeds, the scratch buffer holds the
header followed by the encoding, and exactly those bytes are appended to
the transport. -/
theorem writeMessage_ok {α : Type} (pm : ProstMessage α) (m : α) (ms : MessageStream)
    (hc : 1 ≤ ms.byte_stream.chunk_size) (hfit : pm.encoded_len m ≤ 4294967295) :
    writeMessage ms pm m =
      (.ok (),
       { byte_stream := { ms.byte_stream with
           bytes := ms.byte_stream.bytes ++ (beBytes (pm.encoded_len m) ++ pm.encode m) },
         buffer := beBytes (pm.encoded_len m) ++ pm.encode m }) := by
  simp only [writeMessage, if_pos hfit, writeAll_ok _ _ hc]

/-- `read_message` on a transport whose unread bytes start with a complete
frame: 4 header bytes `hdr` followed by at least `beToNat hdr` more bytes.
It consumes exactly `4 + beToNat hdr` bytes and hands `pm.decode` exactly
the declared body bytes, succeeding or failing with `InvalidData`
according to the decode result; the scratch buffer ends up holding the
body. -/
theorem readMessage_spec {α : Type} (pm : ProstMessage α) (ms : MessageStream)
    (hdr tail : List Nat) (hc : 1 ≤ ms.byte_stream.chunk_size)
    (hframe : ms.byte_stream.bytes.drop ms.byte_stream.read_offset = hdr ++ tail)
    (hhdr : hdr.length = 4) (hlen : beToNat hdr ≤ tail.length) :
    readMessage ms pm =
      ((match pm.decode (tail.take (beToNat hdr)) with
        | some m => .ok m
        | none => .error (.invalidData decodeErrorMsg)),
       { byte_stream := { ms.byte_stream with
           read_offset := ms.byte_stream.read_offset + 4 + beToNat hdr },
         buffer := tail.take (beToNat hdr) }) := by
  have havail : ms.byte_stream.bytes.length - ms.byte_stream.read_offset = 4 + tail.length := by
    have := congrArg List.length hframe
    simp only [List.length_drop, List.length_append, hhdr] at this
    omega
  have hread4 : readExact ms.byte_stream 4 =
      (.ok hdr,
       { ms.byte_stream with read_offset := ms.byte_stream.read_offset + 4 }) := by
    rw [readExact, readExactGo_ok _ _ _ hc (by omega)]
    rw [hframe, List.take_left' hhdr]
    simp
  have hread2 : readExact { ms.byte_stream with read_offset := ms.byte_stream.read_offset + 4 }
      (beToNat hdr) =
      (.ok (tail.take (beToNat hdr)),
       { ms.byte_stream with read_offset := ms.byte_stream.read_offset + 4 + beToNat hdr }) := by
    rw [readExact, readExactGo_ok _ _ _ (by simpa using hc) (by simp only; omega)]
    have hdropped : ms.byte_stream.bytes.drop (ms.byte_stream.read_offset + 4) = tail := by
      rw [← List.drop_drop, hframe, List.drop_left' hhdr]
    simp only
    rw [hdropped]
    simp
  rw [readMessage]
  simp only [hread4]
  simp only [hread2]
  cases hdec : pm.decode (tail.take (beToNat hdr)) with
  | some m => simp [hdec]
  | none => simp [hdec]

/-- `write_all` either succeeds or fails with `WriteZero`; it can produce
no other outcome on this transport. -/
theorem writeAll_cases (s : ChunkedStream) (buf : List Nat) :
    (writeAll s buf).1 = .ok () ∨ (writeAll s buf).1 = .error .writeZero := by
  induction s, buf using writeAll.induct with
  | case1 s buf h =>
    rw [writeAll]
    simp [h]
  | case2 s buf h s1 hr =>
    rw [writeAll]
    have hne : buf ≠ [] := fun hh => h (by simp [hh])
    simp [dif_neg h, hr, hne]
  | case3 s buf h n s1 hr h2 ih =>
    rw [writeAll]
    simp only [dif_neg h, hr, dif_neg h2]
    exact ih

/-- If reading the 4 header bytes fails, `read_message` propagates that
error. -/
theorem readMessage_header_error {α : Type} (pm : ProstMessage α) (ms : MessageStream)
    (e : IoError) (h : (readExact ms.byte_stream 4).1 = .error e) :
    (readMessage ms pm).1 = .error e := by
  rw [readMessage]
  rcases hres : readExact ms.byte_stream 4 with ⟨r, s1⟩
  rw [hres] at h
  simp only at h
  subst h
  rfl

/-- If the header is read successfully but reading the declared body
fails, `read_message` propagates that error. -/
theorem readMessage_body_error {α : Type} (pm : ProstMessage α) (ms : MessageStream)
    (hdr : List Nat) (s1 : ChunkedStream) (e : IoError)
    (hok : readExact ms.byte_stream 4 = (.ok hdr, s1))
    (h : (readExact s1 (beToNat hdr)).1 = .error e) :
    (readMessage ms pm).1 = .error e := by
  rw [readMessage]
  simp only [hok]
  rcases hres : readExact s1 (beToNat hdr) with ⟨r, s2⟩
  rw [hres] at h
  simp only at h
  subst h
  rfl

/-- Reading the 4-byte header from a stream whose unread bytes start with
a 4-byte block succeeds and returns that block. -/
theorem readExact_header (s : ChunkedStream) (hdr tail : List Nat) (hc : 1 ≤ s.chunk_size)
    (hframe : s.bytes.drop s.read_offset = hdr ++ tail) (hhdr : hdr.length = 4) :
    readExact s 4 = (.ok hdr, { s with read_offset := s.read_offset + 4 }) := by
  have havail : s.bytes.length - s.read_offset = 4 + tail.length := by
    have := congrArg List.length hframe
    simp only [List.length_drop, List.length_append, hhdr] at this
    omega
  rw [readExact, readExactGo_ok _ _ _ hc (by omega)]
  rw [hframe, List.take_left' hhdr]
  simp

/-- The scratch buffer resize produces a buffer of exactly the requested
length. -/
theorem listResize_length (l : List Nat) (n : Nat) : (listResize l n).length = n := by
  simp only [listResize, List.length_append, List.length_take, List.length_replicate]
  omega

/-- Every position of the resized buffer beyond the old length is
zero-filled. -/
theorem listResize_zero_fill (l : List Nat) (n i : Nat) (h1 : l.length ≤ i) (h2 : i < n) :
    (listResize l n).getD i 1 = 0 := by
  have htk : (l.take n).length = l.length := by
    simp only [List.length_take]
    omega
  rw [listResize, List.getD_append_right _ _ _ _ (by omega)]
  rw [htk]
  have hlt : i - l.length < n - l.length := by omega
  rw [List.getD_eq_getElem _ _ (by simpa using hlt)]
  simp

/-! ## Claim theorems -/

/-- C1: for every payload message whose codec satisfies the prost contract
and whose encoding fits the 4-byte length field, writing it with
`write_message` and then reading the produced byte sequence back with
`read_message` returns an equal message, and the result is `.ok m` for
every positive writer chunk size and every positive reader chunk size —
1-byte, 3-byte, or unbounded chunks all produce the identical result. -/
theorem claim_C1_roundtrip_chunk_independent {α : Type} (pm : ProstMessage α) (m : α)
    (cw cr : Nat) (hcw : 1 ≤ cw) (hcr : 1 ≤ cr)
    (hlaw : LawfulOn pm m) (hfit : pm.encoded_len m ≤ 4294967295) :
    (writeMessage (MessageStream.new ⟨[], 0, cw⟩) pm m).1 = .ok () ∧
    (readMessage (MessageStream.new
        ⟨(writeMessage (MessageStream.new ⟨[], 0, cw⟩) pm m).2.byte_stream.bytes, 0, cr⟩)
        pm).1 = .ok m := by
  obtain ⟨hlen, hdec⟩ := hlaw
  have hw := writeMessage_ok pm m (MessageStream.new ⟨[], 0, cw⟩) hcw hfit
  refine ⟨by rw [hw], ?_⟩
  have hb : (writeMessage (MessageStream.new ⟨[], 0, cw⟩) pm m).2.byte_stream.bytes
      = beBytes (pm.encoded_len m) ++ pm.encode m := by
    rw [hw]
    simp [MessageStream.new]
  rw [hb]
  rw [readMessage_spec pm _ (beBytes (pm.encoded_len m)) (pm.encode m) hcr
    (by simp [MessageStream.new]) (beBytes_length _)
    (by rw [beToNat_beBytes _ hfit, ← hlen])]
  have hfit2 : (pm.encode m).length ≤ 4294967295 := by rw [hlen]; exact hfit
  simp only [← hlen, beToNat_beBytes _ hfit2, List.take_length, hdec]

/-- C2: a successful `write_message` appends to the transport exactly the
4 big-endian header bytes of the encoded length, immediately followed by
exactly the encoded payload bytes, and nothing else: the transport's byte
vector afterwards is the old bytes plus header plus payload, the header is
4 bytes decoding to the payload length, and the payload is exactly that
many bytes. -/
theorem claim_C2_frame_layout {α : Type} (pm : ProstMessage α) (m : α)
    (s : ChunkedStream) (b0 : List Nat)
    (hc : 1 ≤ s.chunk_size) (hfit : pm.encoded_len m ≤ 4294967295)
    (hlen : (pm.encode m).length = pm.encoded_len m) :
    (writeMessage ⟨s, b0⟩ pm m).1 = .ok () ∧
    (writeMessage ⟨s, b0⟩ pm m).2.byte_stream.bytes
      = s.bytes ++ beBytes (pm.encoded_len m) ++ pm.encode m ∧
    (beBytes (pm.encoded_len m)).length = 4 ∧
    beToNat (beBytes (pm.encoded_len m)) = pm.encoded_len m ∧
    (pm.encode m).length = pm.encoded_len m := by
  have hw := writeMessage_ok pm m ⟨s, b0⟩ hc hfit
  exact ⟨by rw [hw], by rw [hw]; simp [List.append_assoc],
    beBytes_length _, beToNat_beBytes _ hfit, hlen⟩

/-- C4: a payload whose encoded length exceeds `u32::MAX` makes
`write_message` fail with the "message is too large" `InvalidData` error
while the stream (transport bytes included) is left completely untouched;
a payload whose encoded length fits never produces that error. -/
theorem claim_C4_oversize_rejected {α : Type} (pm : ProstMessage α) (m : α)
    (s : ChunkedStream) (b0 : List Nat) :
    (4294967296 ≤ pm.encoded_len m →
      writeMessage ⟨s, b0⟩ pm m =
        (.error (.invalidData "message is too large"), ⟨s, b0⟩)) ∧
    (pm.encoded_len m ≤ 4294967295 →
      (writeMessage ⟨s, b0⟩ pm m).1 ≠ .error (.invalidData "message is too large")) := by
  constructor
  · intro hbig
    rw [writeMessage]
    simp only [if_neg (by omega : ¬pm.encoded_len m ≤ 4294967295)]
  · intro hfit
    rw [writeMessage]
    simp only [if_pos hfit]
    rcases writeAll_cases s (beBytes (pm.encoded_len m) ++ pm.encode m) with h | h <;>
      simp [h]

/-- C3: if the transport closes before delivering the 4 header bytes, or
delivers a 4-byte header but closes before the declared body length is
available, `read_message` fails with `UnexpectedEof` — never a silently
short result. -/
theorem claim_C3_truncation_eof {α : Type} (pm : ProstMessage α) (ms : MessageStream) :
    (ms.byte_stream.bytes.length - ms.byte_stream.read_offset < 4 →
      (readMessage ms pm).1 = .error .unexpectedEof) ∧
    (∀ hdr tail : List Nat,
      ms.byte_stream.bytes.drop ms.byte_stream.read_offset = hdr ++ tail →
      hdr.length = 4 → tail.length < beToNat hdr →
      (readMessage ms pm).1 = .error .unexpectedEof) := by
  constructor
  · intro h
    exact readMessage_header_error pm ms _ (readExactGo_eof ms.byte_stream 4 [] (by omega))
  · intro hdr tail hframe hhdr hshort
    by_cases hc : 1 ≤ ms.byte_stream.chunk_size
    · have havail : ms.byte_stream.bytes.length - ms.byte_stream.read_offset
          = 4 + tail.length := by
        have := congrArg List.length hframe
        simp only [List.length_drop, List.length_append, hhdr] at this
        omega
      apply readMessage_body_error pm ms hdr _ .unexpectedEof
        (readExact_header ms.byte_stream hdr tail hc hframe hhdr)
      apply readExactGo_eof
      simp only
      omega
    · exact readMessage_header_error pm ms _
        (readExactGo_zero_chunk ms.byte_stream 4 [] (by omega) (by omega))

/-- C6: writing P1 then P2 on one stream and then reading twice from the
resulting byte sequence yields P1 from the first read and P2 from the
second — frames come back in exactly the order they were written. -/
theorem claim_C6_order_preserved {α : Type} (pm : ProstMessage α) (m1 m2 : α) (c : Nat)
    (hc : 1 ≤ c) (hl1 : LawfulOn pm m1) (hl2 : LawfulOn pm m2)
    (hf1 : pm.encoded_len m1 ≤ 4294967295) (hf2 : pm.encoded_len m2 ≤ 4294967295) :
    (readMessage (writeMessage (writeMessage (MessageStream.new ⟨[], 0, c⟩) pm m1).2 pm m2).2
        pm).1 = .ok m1 ∧
    (readMessage (readMessage
        (writeMessage (writeMessage (MessageStream.new ⟨[], 0, c⟩) pm m1).2 pm m2).2 pm).2
        pm).1 = .ok m2 := by
  obtain ⟨he1, hd1⟩ := hl1
  obtain ⟨he2, hd2⟩ := hl2
  have hw1 := writeMessage_ok pm m1 (MessageStream.new ⟨[], 0, c⟩) hc hf1
  have hs1 : (writeMessage (MessageStream.new ⟨[], 0, c⟩) pm m1).2
      = ⟨⟨beBytes (pm.encoded_len m1) ++ pm.encode m1, 0, c⟩,
          beBytes (pm.encoded_len m1) ++ pm.encode m1⟩ := by
    rw [hw1]
    simp [MessageStream.new]
  rw [hs1]
  have hw2 := writeMessage_ok pm m2
    ⟨⟨beBytes (pm.encoded_len m1) ++ pm.encode m1, 0, c⟩,
      beBytes (pm.encoded_len m1) ++ pm.encode m1⟩ hc hf2
  have hs2 : (writeMessage
      ⟨⟨beBytes (pm.encoded_len m1) ++ pm.encode m1, 0, c⟩,
        beBytes (pm.encoded_len m1) ++ pm.encode m1⟩ pm m2).2
      = ⟨⟨(beBytes (pm.encoded_len m1) ++ pm.encode m1)
            ++ (beBytes (pm.encoded_len m2) ++ pm.encode m2), 0, c⟩,
          beBytes (pm.encoded_len m2) ++ pm.encode m2⟩ := by
    rw [hw2]
  rw [hs2]
  have hr1 := readMessage_spec pm
    ⟨⟨(beBytes (pm.encoded_len m1) ++ pm.encode m1)
        ++ (beBytes (pm.encoded_len m2) ++ pm.encode m2), 0, c⟩,
      beBytes (pm.encoded_len m2) ++ pm.encode m2⟩
    (beBytes (pm.encoded_len m1))
    (pm.encode m1 ++ (beBytes (pm.encoded_len m2) ++ pm.encode m2))
    hc (by simp) (beBytes_length _)
    (by rw [beToNat_beBytes _ hf1]
        simp only [List.length_append]
        omega)
  rw [beToNat_beBytes _ hf1] at hr1
  rw [List.take_left' he1, hd1] at hr1
  refine ⟨by rw [hr1], ?_⟩
  rw [hr1]
  simp only
  have hr2 := readMessage_spec pm
    ⟨⟨(beBytes (pm.encoded_len m1) ++ pm.encode m1)
        ++ (beBytes (pm.encoded_len m2) ++ pm.encode m2),
        0 + 4 + pm.encoded_len m1, c⟩, pm.encode m1⟩
    (beBytes (pm.encoded_len m2)) (pm.encode m2)
    hc
    (by simp only
        rw [List.drop_left'
          (by simp [List.length_append, beBytes_length, he1])])
    (beBytes_length _)
    (by rw [beToNat_beBytes _ hf2, ← he2])
  rw [beToNat_beBytes _ hf2] at hr2
  have htake2 : (pm.encode m2).take (pm.encoded_len m2) = pm.encode m2 := by
    rw [← he2, List.take_length]
  rw [htake2, hd2] at hr2
  rw [hr2]

/-- C7: when the exact body bytes declared by the header fail to decode as
the caller-requested type, `read_message` returns the `InvalidData`
decode error, not a message value. -/
theorem claim_C7_malformed_payload {α : Type} (pm : ProstMessage α) (ms : MessageStream)
    (hdr rest : List Nat) (hc : 1 ≤ ms.byte_stream.chunk_size)
    (hframe : ms.byte_stream.bytes.drop ms.byte_stream.read_offset = hdr ++ rest)
    (hhdr : hdr.length = 4) (hlen : beToNat hdr ≤ rest.length)
    (hbad : pm.decode (rest.take (beToNat hdr)) = none) :
    (readMessage ms pm).1 = .error (.invalidData decodeErrorMsg) := by
  rw [readMessage_spec pm ms hdr rest hc hframe hhdr hlen]
  simp [hbad]

/-- C9: `read_message` applies no upper-bound check to the declared
length: for every header value `n` up to `2^32 - 1`, the scratch buffer is
resized to exactly `n` entries (zero-filling any extension) and, given the
bytes are available, exactly `4 + n` transport bytes are consumed and the
`n` body bytes become the buffer handed to the decoder. -/
theorem claim_C9_no_length_sanity_check {α : Type} (pm : ProstMessage α) (ms : MessageStream)
    (n : Nat) (rest : List Nat) (hc : 1 ≤ ms.byte_stream.chunk_size)
    (hframe : ms.byte_stream.bytes.drop ms.byte_stream.read_offset = beBytes n ++ rest)
    (hfit : n ≤ 4294967295) (hlen : n ≤ rest.length) :
    (listResize ms.buffer n).length = n ∧
    (∀ i, ms.buffer.length ≤ i → i < n → (listResize ms.buffer n).getD i 1 = 0) ∧
    (readMessage ms pm).2.byte_stream.read_offset = ms.byte_stream.read_offset + 4 + n ∧
    (readMessage ms pm).2.buffer = rest.take n := by
  have hspec := readMessage_spec pm ms (beBytes n) rest hc hframe (beBytes_length n)
    (by rw [beToNat_beBytes _ hfit]; exact hlen)
  rw [beToNat_beBytes _ hfit] at hspec
  exact ⟨listResize_length _ _, fun i h1 h2 => listResize_zero_fill _ _ _ h1 h2,
    by rw [hspec], by rw [hspec]⟩

/-- C10: when the declared body fails to decode, the error is returned
only after the full frame — exactly `4 + n` bytes — has been consumed, so
the transport stays aligned on the next frame boundary. -/
theorem claim_C10_decode_failure_preserves_alignment {α : Type} (pm : ProstMessage α)
    (ms : MessageStream) (hdr rest : List Nat) (hc : 1 ≤ ms.byte_stream.chunk_size)
    (hframe : ms.byte_stream.bytes.drop ms.byte_stream.read_offset = hdr ++ rest)
    (hhdr : hdr.length = 4) (hlen : beToNat hdr ≤ rest.length)
    (hbad : pm.decode (rest.take (beToNat hdr)) = none) :
    (readMessage ms pm).1 = .error (.invalidData decodeErrorMsg) ∧
    (readMessage ms pm).2.byte_stream.bytes = ms.byte_stream.bytes ∧
    (readMessage ms pm).2.byte_stream.read_offset
      = ms.byte_stream.read_offset + 4 + beToNat hdr := by
  rw [readMessage_spec pm ms hdr rest hc hframe hhdr hlen]
  refine ⟨by simp [hbad], rfl, rfl⟩

/-- C5: for every registered payload type, `from_variant` inverts
`to_variant`, and extracting a payload type from a variant holding any
other concrete type of the same direction returns `none` — an absent
result, not an error. -/
theorem claim_C5_variant_classification :
    (∀ a : from_client.Auth, from_client.Auth.from_variant a.to_variant = some a) ∧
    (∀ a : from_client.NewWorktree,
      from_client.NewWorktree.from_variant a.to_variant = some a) ∧
    (∀ a : from_client.ShareWorktree,
      from_client.ShareWorktree.from_variant a.to_variant = some a) ∧
    (∀ a : from_client.UploadFile, from_client.UploadFile.from_variant a.to_variant = some a) ∧
    (∀ a : from_client.SubscribeToPathRequests,
      from_client.SubscribeToPathRequests.from_variant a.to_variant = some a) ∧
    (∀ a : from_server.AuthResponse, from_server.AuthResponse.from_variant a.to_variant = some a) ∧
    (∀ a : from_server.NewWorktreeResponse,
      from_server.NewWorktreeResponse.from_variant a.to_variant = some a) ∧
    (∀ a : from_server.ShareWorktreeResponse,
      from_server.ShareWorktreeResponse.from_variant a.to_variant = some a) ∧
    (∀ a : from_server.PathRequest, from_server.PathRequest.from_variant a.to_variant = some a) ∧
    (∀ v : from_client.Variant, (∀ a : from_client.Auth, v ≠ a.to_variant) →
      from_client.Auth.from_variant v = none) ∧
    (∀ v : from_client.Variant, (∀ a : from_client.NewWorktree, v ≠ a.to_variant) →
      from_client.NewWorktree.from_variant v = none) ∧
    (∀ v : from_client.Variant, (∀ a : from_client.ShareWorktree, v ≠ a.to_variant) →
      from_client.ShareWorktree.from_variant v = none) ∧
    (∀ v : from_client.Variant, (∀ a : from_client.UploadFile, v ≠ a.to_variant) →
      from_client.UploadFile.from_variant v = none) ∧
    (∀ v : from_client.Variant, (∀ a : from_client.SubscribeToPathRequests, v ≠ a.to_variant) →
      from_client.SubscribeToPathRequests.from_variant v = none) ∧
    (∀ v : from_server.Variant, (∀ a : from_server.AuthResponse, v ≠ a.to_variant) →
      from_server.AuthResponse.from_variant v = none) ∧
    (∀ v : from_server.Variant, (∀ a : from_server.NewWorktreeResponse, v ≠ a.to_variant) →
      from_server.NewWorktreeResponse.from_variant v = none) ∧
    (∀ v : from_server.Variant, (∀ a : from_server.ShareWorktreeResponse, v ≠ a.to_variant) →
      from_server.ShareWorktreeResponse.from_variant v = none) ∧
    (∀ v : from_server.Variant, (∀ a : from_server.PathRequest, v ≠ a.to_variant) →
      from_server.PathRequest.from_variant v = none) := by
  refine ⟨fun a => rfl, fun a => rfl, fun a => rfl, fun a => rfl, fun a => rfl,
    fun a => rfl, fun a => rfl, fun a => rfl, fun a => rfl,
    ?_, ?_, ?_, ?_, ?_, ?_, ?_, ?_, ?_⟩ <;>
  · intro v hv
    cases v <;> first | rfl | exact absurd rfl (hv _)

/-! ## Concrete witnesses -/

/-- Witness for C1: a 3-byte payload written with 3-byte chunks and read
back with 1-byte chunks round-trips. -/
theorem claim_C1_witness :
    (writeMessage (MessageStream.new ⟨[], 0, 3⟩) natListCodec [7, 8, 9]).1 = .ok () ∧
    (readMessage (MessageStream.new
        ⟨(writeMessage (MessageStream.new ⟨[], 0, 3⟩) natListCodec [7, 8, 9]).2.byte_stream.bytes,
          0, 1⟩) natListCodec).1 = .ok [7, 8, 9] :=
  claim_C1_roundtrip_chunk_independent natListCodec [7, 8, 9] 3 1 (by decide) (by decide)
    ⟨rfl, rfl⟩ (by decide)

/-- Witness for C2: writing a 2-byte payload appends header `[0,0,0,2]`
then the payload. -/
theorem claim_C2_witness :
    (writeMessage ⟨⟨[9], 0, 3⟩, [0]⟩ natListCodec [1, 2]).1 = .ok () ∧
    (writeMessage ⟨⟨[9], 0, 3⟩, [0]⟩ natListCodec [1, 2]).2.byte_stream.bytes
      = [9] ++ [0, 0, 0, 2] ++ [1, 2] ∧
    (beBytes 2).length = 4 ∧
    beToNat (beBytes 2) = 2 ∧
    ([1, 2] : List Nat).length = 2 :=
  claim_C2_frame_layout natListCodec [1, 2] ⟨[9], 0, 3⟩ [0] (by decide) (by decide) rfl

/-- Witness for C3: a 2-byte stream fails in the header, and a stream
declaring 5 body bytes but holding 2 fails in the body, both with
`UnexpectedEof`. -/
theorem claim_C3_witness :
    (readMessage ⟨⟨[1, 2], 0, 3⟩, []⟩ natListCodec).1 = .error .unexpectedEof ∧
    (readMessage ⟨⟨[0, 0, 0, 5, 1, 2], 0, 3⟩, []⟩ natListCodec).1 = .error .unexpectedEof :=
  ⟨(claim_C3_truncation_eof natListCodec ⟨⟨[1, 2], 0, 3⟩, []⟩).1 (by decide),
   (claim_C3_truncation_eof natListCodec ⟨⟨[0, 0, 0, 5, 1, 2], 0, 3⟩, []⟩).2
     [0, 0, 0, 5] [1, 2] rfl rfl (by decide)⟩

/-- Witness for C4: a codec reporting length `2^32` is rejected with the
transport untouched, and a 1-byte payload never triggers that error. -/
theorem claim_C4_witness :
    writeMessage ⟨⟨[], 0, 1⟩, []⟩ bigCodec ()
      = (.error (.invalidData "message is too large"), ⟨⟨[], 0, 1⟩, []⟩) ∧
    (writeMessage ⟨⟨[], 0, 1⟩, []⟩ natListCodec [4]).1
      ≠ .error (.invalidData "message is too large") :=
  ⟨(claim_C4_oversize_rejected bigCodec () ⟨[], 0, 1⟩ []).1 (by decide),
   (claim_C4_oversize_rejected natListCodec [4] ⟨[], 0, 1⟩ []).2 (by decide)⟩

/-- Witness for C5: `Auth` round-trips through its variant arm, and
extracting `Auth` from an `UploadFile` variant yields `none`. -/
theorem claim_C5_witness :
    from_client.Auth.from_variant (from_client.Auth.to_variant ⟨5, "the-access-token"⟩)
      = some ⟨5, "the-access-token"⟩ ∧
    from_client.Auth.from_variant (from_client.UploadFile.to_variant ⟨[], []⟩) = none :=
  ⟨claim_C5_variant_classification.1 ⟨5, "the-access-token"⟩,
   claim_C5_variant_classification.2.2.2.2.2.2.2.2.2.1
     (from_client.UploadFile.to_variant ⟨[], []⟩) (fun a h => nomatch h)⟩

/-- Witness for C6: writing `[5]` then `[6,7]` with 3-byte chunks and
reading twice yields them in order. -/
theorem claim_C6_witness :
    (readMessage (writeMessage (writeMessage (MessageStream.new ⟨[], 0, 3⟩)
        natListCodec [5]).2 natListCodec [6, 7]).2 natListCodec).1 = .ok [5] ∧
    (readMessage (readMessage (writeMessage (writeMessage (MessageStream.new ⟨[], 0, 3⟩)
        natListCodec [5]).2 natListCodec [6, 7]).2 natListCodec).2 natListCodec).1
      = .ok [6, 7] :=
  claim_C6_order_preserved natListCodec [5] [6, 7] 3 (by decide)
    ⟨rfl, rfl⟩ ⟨rfl, rfl⟩ (by decide) (by decide)

/-- Witness for C7: a frame declaring 2 body bytes whose decoder rejects
them produces the `InvalidData` decode error. -/
theorem claim_C7_witness :
    (readMessage ⟨⟨[0, 0, 0, 2, 8, 9], 0, 3⟩, []⟩ failCodec).1
      = .error (.invalidData decodeErrorMsg) :=
  claim_C7_malformed_payload failCodec ⟨⟨[0, 0, 0, 2, 8, 9], 0, 3⟩, []⟩
    [0, 0, 0, 2] [8, 9] (by decide) rfl rfl (by decide) rfl

/-- Witness for C9: a header declaring 5 bytes resizes a 2-entry buffer to
5 zero-extended entries and consumes exactly 9 transport bytes. -/
theorem claim_C9_witness :
    (listResize [9, 9] 5).length = 5 ∧
    (listResize [9, 9] 5).getD 3 1 = 0 ∧
    (readMessage ⟨⟨[0, 0, 0, 5, 1, 2, 3, 4, 5], 0, 2⟩, [9, 9]⟩
        natListCodec).2.byte_stream.read_offset = 0 + 4 + 5 ∧
    (readMessage ⟨⟨[0, 0, 0, 5, 1, 2, 3, 4, 5], 0, 2⟩, [9, 9]⟩
        natListCodec).2.buffer = [1, 2, 3, 4, 5] := by
  obtain ⟨h1, h2, h3, h4⟩ := claim_C9_no_length_sanity_check natListCodec
    ⟨⟨[0, 0, 0, 5, 1, 2, 3, 4, 5], 0, 2⟩, [9, 9]⟩ 5 [1, 2, 3, 4, 5]
    (by decide) (by decide) (by decide) (by decide)
  exact ⟨h1, h2 3 (by decide) (by decide), h3, h4⟩

/-- Witness for C10: the failed decode of a 2-byte body still consumes the
full 6-byte frame, leaving the offset at the next frame boundary. -/
theorem claim_C10_witness :
    (readMessage ⟨⟨[0, 0, 0, 2, 8, 9, 7], 0, 3⟩, []⟩ failCodec).1
      = .error (.invalidData decodeErrorMsg) ∧
    (readMessage ⟨⟨[0, 0, 0, 2, 8, 9, 7], 0, 3⟩, []⟩ failCodec).2.byte_stream.bytes
      = [0, 0, 0, 2, 8, 9, 7] ∧
    (readMessage ⟨⟨[0, 0, 0, 2, 8, 9, 7], 0, 3⟩, []⟩ failCodec).2.byte_stream.read_offset
      = 0 + 4 + beToNat [0, 0, 0, 2] :=
  claim_C10_decode_failure_preserves_alignment failCodec ⟨⟨[0, 0, 0, 2, 8, 9, 7], 0, 3⟩, []⟩
    [0, 0, 0, 2] [8, 9, 7] (by decide) rfl rfl (by decide) rfl

end ZedRpc

